import Mathlib

/-!
Verification development for the connecting-flights finder.

The repository consists of three near-duplicate Python variants
(airports.py, airports_fixed.py, airports_enhanced.py) built on a
networkx directed graph whose edge attributes carry a flight quote.
This file gives a shallow embedding of the data model and of the
functions the claims are about:

* the route graph (nodes, at most one attributed edge per ordered pair,
  add_edge inserting endpoints and overwriting an existing edge),
* the planners find_cheapest_path (airports.py),
  find_shortest_path_with_preference (airports_fixed.py) and
  find_optimal_route (airports_enhanced.py); the networkx calls
  dijkstra_path / dijkstra_path_length are modelled by their
  specification on the nonnegative weights the pipeline guarantees:
  a minimum-cost member of the finite set of simple paths;
  nx.has_path raising NodeNotFound on a missing endpoint is modelled
  by an explicit raised outcome,
* the cheapest-offer extraction shared by the three fetchers,
* the acquisition pipelines populate_graph_with_flight_data
  (airports_fixed.py) and populate_graph_with_real_data /
  get_flight_details_requests (airports.py), with the live source as a
  response oracle indexed by a call counter and the Python global
  pseudo-random generator as explicit state threaded through an
  abstract generator interface.

Airport IATA codes are modelled by numeric identifiers; prices, which
are Python floats in the source, are modelled by rationals.
-/

namespace Airports

/-- Edge attributes stored by add_edge: price (the weight used by the
planners), the airline as an index into the fixed airline list, the
flight date as a day number, departure and arrival times, duration and
stop count. String rendering of times in the source is injective, so
the numeric fields determine the stored attributes. -/
structure FlightInfo where
  price : ℚ
  airline : ℕ
  date : ℕ
  depHour : ℕ
  depMin : ℕ
  arrHour : ℕ
  arrMin : ℕ
  durHours : ℕ
  durMins : ℕ
  stops : ℕ
deriving DecidableEq

instance : Inhabited FlightInfo :=
  ⟨⟨0, 0, 0, 0, 0, 0, 0, 0, 0, 0⟩⟩

/-- The networkx DiGraph: a node list and an association list with at
most one attributed edge per ordered pair (the first matching entry is
the edge). -/
structure Graph where
  nodes : List ℕ
  edges : List (ℕ × ℕ × FlightInfo)
deriving DecidableEq

/-- Attribute record of the edge o → d, if present (G[o][d]). -/
def edgeInfo (G : Graph) (o d : ℕ) : Option FlightInfo :=
  (G.edges.find? (fun e => e.1 == o && e.2.1 == d)).map (fun e => e.2.2)

/-- The weight attribute of the edge o → d (G[o][d], key weight or
price, both of which hold the quoted price in every variant). -/
def edgePrice (G : Graph) (o d : ℕ) : Option ℚ :=
  (edgeInfo G o d).map (fun i => i.price)

/-- networkx add_node semantics: adding an already present node is a
no-op, a new node is appended. -/
def addNode (ns : List ℕ) (v : ℕ) : List ℕ :=
  if v ∈ ns then ns else ns ++ [v]

/-- networkx add_edge semantics: both endpoints are added as nodes and
the attribute record for the ordered pair is overwritten in place, or
appended when the pair had no edge yet. -/
def addEdge (G : Graph) (o d : ℕ) (info : FlightInfo) : Graph :=
  { nodes := addNode (addNode G.nodes o) d
    edges :=
      if G.edges.any (fun e => e.1 == o && e.2.1 == d) then
        G.edges.map (fun e => if e.1 == o && e.2.1 == d then (o, d, info) else e)
      else
        G.edges ++ [(o, d, info)] }

/-- Every consecutive pair of the node sequence is an edge of G. -/
def chainB (G : Graph) : List ℕ → Bool
  | u :: v :: rest => (edgePrice G u v).isSome && chainB G (v :: rest)
  | _ => true

/-- Sum of the prices of the edges along a node sequence (a missing
edge contributes 0; on sequences satisfying chainB this is the literal
sum of the traversed edge prices). -/
def chainCost (G : Graph) : List ℕ → ℚ
  | u :: v :: rest => (edgePrice G u v).getD 0 + chainCost G (v :: rest)
  | _ => 0

/-- Depth-first enumeration of the simple paths from u to t that avoid
the visited list, with fuel bounding the number of edges. -/
def pathsAux (G : Graph) (t : ℕ) : List ℕ → ℕ → ℕ → List (List ℕ)
  | _, u, 0 => if u = t then [[u]] else []
  | visited, u, n + 1 =>
    if u = t then [[u]]
    else
      (G.nodes.filter (fun v => !(visited.contains v) && (edgePrice G u v).isSome)).flatMap
        (fun v => (pathsAux G t (v :: visited) v n).map (fun p => u :: p))

/-- All simple paths from s to t in G; the fuel G.nodes.length covers
every simple path. -/
def simplePaths (G : Graph) (s t : ℕ) : List (List ℕ) :=
  pathsAux G t [s] s G.nodes.length

/-- One fold step keeping the strictly cheaper path. -/
def minStep (G : Graph) (best : List ℕ × ℚ) (q : List ℕ) : List ℕ × ℚ :=
  if chainCost G q < best.2 then (q, chainCost G q) else best

/-- A minimum-cost member of a list of paths (the first one on ties). -/
def pickMin (G : Graph) : List (List ℕ) → Option (List ℕ × ℚ)
  | [] => none
  | p :: ps => some (ps.foldl (minStep G) (p, chainCost G p))

/-- Specification-level model of nx.dijkstra_path together with
nx.dijkstra_path_length over nonnegative weights: a minimum-cost simple
path from s to t with its cost, or none exactly when no path exists
(which is also the condition nx.has_path tests for present nodes). -/
def dijkstra (G : Graph) (s t : ℕ) : Option (List ℕ × ℚ) :=
  pickMin G (simplePaths G s t)

/-- Outcome of the two planners of airports.py and airports_fixed.py:
an uncaught exception (nx.has_path raises NodeNotFound when an endpoint
is not a node, and that call is outside the try block in both
functions), the pair (None, float inf), or a path with its cost. -/
inductive PlanResult where
  | raised : PlanResult
  | noRoute : PlanResult
  | found : List ℕ → ℚ → PlanResult
deriving DecidableEq

/-- find_cheapest_path of airports.py: has_path guard (raising on a
missing endpoint), then Dijkstra by weight. -/
def find_cheapest_path (G : Graph) (s t : ℕ) : PlanResult :=
  if s ∈ G.nodes ∧ t ∈ G.nodes then
    match dijkstra G s t with
    | some (p, c) => .found p c
    | none => .noRoute
  else .raised

/-- find_shortest_path_with_preference of airports_fixed.py: has_path
guard (raising on a missing endpoint); if a direct edge exists, run
Dijkstra and keep the direct edge when the cheapest path has more than
one hop and the direct price is within the factor 1.3 of its cost,
otherwise keep the Dijkstra result; with no direct edge, return the
Dijkstra result. The inner except branch returning the direct edge is
unreachable in this pure model because Dijkstra succeeds whenever
has_path held. -/
def find_shortest_path_with_preference (G : Graph) (s t : ℕ) : PlanResult :=
  if s ∈ G.nodes ∧ t ∈ G.nodes then
    match dijkstra G s t with
    | none => .noRoute
    | some (sp, sc) =>
      match edgePrice G s t with
      | some w =>
        if 2 < sp.length ∧ w ≤ sc * (13 / 10) then .found [s, t] w
        else .found sp sc
      | none => .found sp sc
  else .raised

/-- Outcome of find_optimal_route of airports_enhanced.py: either the
triple (None, float inf, []) or a path with its cost and per-leg
attribute records. The function catches every exception, so no raised
outcome exists. -/
inductive RouteResult where
  | noRoute : RouteResult
  | found : List ℕ → ℚ → List FlightInfo → RouteResult
deriving DecidableEq

/-- The per-leg attribute records along a node sequence. -/
def legsOf (G : Graph) : List ℕ → List FlightInfo
  | u :: v :: rest => (edgeInfo G u v).getD default :: legsOf G (v :: rest)
  | _ => []

/-- find_optimal_route of airports_enhanced.py: membership guard
returning the NoRoute triple, unconditional direct-edge shortcut, then
Dijkstra by price. -/
def find_optimal_route (G : Graph) (o d : ℕ) : RouteResult :=
  if o ∈ G.nodes ∧ d ∈ G.nodes then
    match edgeInfo G o d with
    | some info => .found [o, d] info.price [info]
    | none =>
      match dijkstra G o d with
      | some (p, c) => .found p c (legsOf G p)
      | none => .noRoute
  else .noRoute

/-- Nonnegative edge weights: the hypothesis under which the Dijkstra
model is faithful to nx.dijkstra_path. -/
def NonnegW (G : Graph) : Prop := ∀ e ∈ G.edges, 0 ≤ e.2.2.price

/-- Strictly positive edge weights: the invariant the acquisition
pipelines are claimed to maintain. -/
def PosW (G : Graph) : Prop := ∀ e ∈ G.edges, 0 < e.2.2.price

instance (G : Graph) : Decidable (NonnegW G) :=
  inferInstanceAs (Decidable (∀ e ∈ G.edges, 0 ≤ e.2.2.price))

instance (G : Graph) : Decidable (PosW G) :=
  inferInstanceAs (Decidable (∀ e ∈ G.edges, 0 < e.2.2.price))

/-! ## Cheapest-offer extraction

The three fetchers share one price-extraction loop over the offers of a
successful response. Each offer is represented by the shape of its
price information: which of the keys price / totalPrice / cost is
present, whether a price value is a dict with an amount entry, a plain
number, or something else, and whether the float() conversion of the
found value succeeds (num) or raises (bad). -/

/-- A value submitted to float(): a number it parses to, or one whose
conversion raises ValueError or TypeError. -/
inductive NumLike where
  | num : ℚ → NumLike
  | bad : NumLike
deriving DecidableEq

/-- The price shape of one offer in a successful response. -/
inductive PriceRepr where
  | absent : PriceRepr
  | amountField : NumLike → PriceRepr
  | dictNoAmount : PriceRepr
  | directNum : ℚ → PriceRepr
  | nonNumeric : NumLike → PriceRepr
  | totalPriceField : NumLike → PriceRepr
  | costField : NumLike → PriceRepr
deriving DecidableEq

/-- Price parsing of airports.py and airports_fixed.py: a dict price
needs an amount entry, a flat price must be an int or float instance
(a numeric string is not parsed), then totalPrice and cost are tried;
a conversion that raises lands in the continue branch, which leaves the
running minimum unchanged just like an unparsed offer. -/
def offerPriceA : PriceRepr → Option ℚ
  | .amountField (.num q) => some q
  | .directNum q => some q
  | .totalPriceField (.num q) => some q
  | .costField (.num q) => some q
  | _ => none

/-- Price parsing of airports_enhanced.py: a dict price falls back to
amount 0 when the entry is missing, a non-dict price is passed to
float() directly so numeric strings parse, then totalPrice and cost. -/
def offerPriceE : PriceRepr → Option ℚ
  | .amountField (.num q) => some q
  | .dictNoAmount => some 0
  | .directNum q => some q
  | .nonNumeric (.num q) => some q
  | .totalPriceField (.num q) => some q
  | .costField (.num q) => some q
  | _ => none

/-- The selection loop: the accumulator is the running cheapest price
with the index of the offer it came from, starting from the infinite
initial cheapest_price, and an offer replaces it when its parsed price
passes keep (the Python truthiness or positivity test) and is strictly
below the running minimum. -/
def selectAux (pa : PriceRepr → Option ℚ) (keep : ℚ → Bool) :
    List PriceRepr → ℕ → Option (ℚ × ℕ) → Option (ℚ × ℕ)
  | [], _, acc => acc
  | r :: rest, i, acc =>
    selectAux pa keep rest (i + 1)
      (match pa r with
       | none => acc
       | some q =>
         match acc with
         | none => if keep q then some (q, i) else none
         | some (b, j) => if keep q && decide (q < b) then some (q, i) else some (b, j))

/-- Truthiness of a float: the test if price of airports.py, which
only rules out 0. -/
def keepA (q : ℚ) : Bool := decide (q ≠ 0)

/-- The test if price and price > 0 of airports_enhanced.py. -/
def keepE (q : ℚ) : Bool := decide (0 < q)

/-- Offer selection of get_flight_details_requests (airports.py) and
get_detailed_flight_info (airports_fixed.py): cheapest price together
with the index of the offer it was taken from. -/
def selectCheapestA (offers : List PriceRepr) : Option (ℚ × ℕ) :=
  selectAux offerPriceA keepA offers 0 none

/-- Offer selection of get_detailed_flight_info
(airports_enhanced.py). -/
def selectCheapestE (offers : List PriceRepr) : Option (ℚ × ℕ) :=
  selectAux offerPriceE keepE offers 0 none

/-! ## Acquisition pipeline

The live source is a response oracle indexed by the number of
flights/search calls already made in the run, and the Python global
random generator is explicit state behind an abstract interface, so
that every theorem holds for every generator implementation. -/

/-- Outcome of one flights/search call: HTTP 200 with a list of offers,
HTTP 429, HTTP 403, another status code, or a raised request
exception. -/
inductive LiveResp where
  | ok : List PriceRepr → LiveResp
  | rateLimited : LiveResp
  | forbidden : LiveResp
  | otherError : LiveResp
  | requestExn : LiveResp
deriving DecidableEq

/-- Whether a response is a successful one. -/
def LiveResp.isOk : LiveResp → Bool
  | .ok _ => true
  | _ => false

/-- Abstract interface of the Python global random generator:
randint a b draws an integer, choiceIdx n draws the index used by
choice on a list of length n, uniformStep is the state transition of
the uniform draw whose value only feeds time.sleep. -/
structure RNG (σ : Type) where
  randint : ℕ → ℕ → σ → ℕ × σ
  choiceIdx : ℕ → σ → ℕ × σ
  uniformStep : σ → σ

/-- The international_routes list of generate_mock_flight_details,
with IATA codes numbered 0 JFK, 1 LAX, 2 LHR, 3 CDG, 4 NRT, 5 DXB,
6 SIN, 7 DEL, 8 BOM, 9 FRA: the pairs are JFK-LHR, LAX-NRT, DXB-JFK,
SIN-LHR, DEL-JFK, BOM-LHR, CDG-JFK, FRA-LAX. -/
def intlRoutes : List (ℕ × ℕ) :=
  [(0, 2), (1, 4), (5, 0), (6, 2), (7, 0), (8, 2), (3, 0), (9, 1)]

/-- The surcharge test of generate_mock_flight_details: the pair or its
reverse is in international_routes. -/
def isIntl (o d : ℕ) : Bool :=
  intlRoutes.contains (o, d) || intlRoutes.contains (d, o)

/-- generate_mock_flight_details of airports_fixed.py, with the random
draws in source order: base price, optional international surcharge,
departure hour, departure minute from [0,15,30,45], duration hours,
duration minutes from [0,15,30,45], then while building the result
dict the airline from the 15-element airline list and the stop count
from [0,0,0,1,1,2]. The date is the current day plus 7. -/
def generate_mock_flight_details {σ : Type} (rng : RNG σ) (today : ℕ)
    (o d : ℕ) (s : σ) : FlightInfo × σ :=
  let r1 := rng.randint 150 1200 s
  let r2 :=
    if isIntl o d then
      let rx := rng.randint 300 800 r1.2
      (r1.1 + rx.1, rx.2)
    else r1
  let r3 := rng.randint 6 23 r2.2
  let r4 := rng.choiceIdx 4 r3.2
  let depM := [0, 15, 30, 45].getD r4.1 0
  let r5 := rng.randint 1 15 r4.2
  let r6 := rng.choiceIdx 4 r5.2
  let durM := [0, 15, 30, 45].getD r6.1 0
  let r7 := rng.choiceIdx 15 r6.2
  let r8 := rng.choiceIdx 6 r7.2
  ({ price := (r2.1 : ℚ), airline := r7.1, date := today + 7
     depHour := r3.1, depMin := depM
     arrHour := (r3.1 + r5.1 + (depM + durM) / 60) % 24
     arrMin := (depM + durM) % 60
     durHours := r5.1, durMins := durM
     stops := [0, 0, 0, 1, 1, 2].getD r8.1 0 }, r8.2)

/-- Attribute record built from a selected live offer in
airports_fixed.py: the price is the parsed one; the remaining
attributes are extracted from offer fields outside this model and are
abstracted by the index of the selected offer and defaults; no claim
depends on them. -/
def liveQuoteInfo (today : ℕ) (q : ℚ) (idx : ℕ) : FlightInfo :=
  { price := q, airline := idx, date := today + 7
    depHour := 0, depMin := 0, arrHour := 0, arrMin := 0
    durHours := 0, durMins := 0, stops := 0 }

/-- get_detailed_flight_info of airports_fixed.py: draw the sleep
duration, make one live call; on HTTP 200 return the cheapest offer
(or None when no offer qualifies); on 429, 403, any other status or a
request exception fall back to generate_mock_flight_details for this
pair only. The counter records the number of live flights/search calls
made so far. -/
def get_detailed_flight_info {σ : Type} (env : ℕ → LiveResp) (rng : RNG σ)
    (today : ℕ) (o d : ℕ) (k : ℕ) (s : σ) : Option FlightInfo × ℕ × σ :=
  let s1 := rng.uniformStep s
  match env k with
  | .ok offers =>
    match selectCheapestA offers with
    | some (q, i) => (some (liveQuoteInfo today q i), k + 1, s1)
    | none => (none, k + 1, s1)
  | _ =>
    let r := generate_mock_flight_details rng today o d s1
    (some r.1, k + 1, r.2)

/-- The per-pair loop of populate_graph_with_flight_data of
airports_fixed.py over an explicit working set of ordered pairs: fetch
each pair and insert the edge only when a record was produced and its
price is strictly positive. -/
def populatePairs {σ : Type} (env : ℕ → LiveResp) (rng : RNG σ) (today : ℕ) :
    List (ℕ × ℕ) → Graph → ℕ → σ → Graph × ℕ × σ
  | [], G, k, s => (G, k, s)
  | (o, d) :: rest, G, k, s =>
    let r := get_detailed_flight_info env rng today o d k s
    populatePairs env rng today rest
      (match r.1 with
       | some info => if 0 < info.price then addEdge G o d info else G
       | none => G)
      r.2.1 r.2.2

/-- The synthetic-only reference run: the behaviour of populatePairs on
a run in which every live call fails, every pair being served by
generate_mock_flight_details. -/
def populateMockOnly {σ : Type} (rng : RNG σ) (today : ℕ) :
    List (ℕ × ℕ) → Graph → σ → Graph × σ
  | [], G, s => (G, s)
  | (o, d) :: rest, G, s =>
    let r := generate_mock_flight_details rng today o d (rng.uniformStep s)
    populateMockOnly rng today rest
      (if 0 < r.1.price then addEdge G o d r.1 else G) r.2

/-- get_flight_details_requests of airports.py: one live call; on
HTTP 200 return the cheapest offer, on 403 or any other failure return
None, and on 429 sleep 60 seconds and call itself again on the same
pair with no bound on the recursion depth. The fuel argument bounds the
modelled recursion: a none result means the fuel was exhausted, i.e.
the source function is still recursing after that many live calls. -/
def get_flight_details_requests (env : ℕ → LiveResp) :
    ℕ → ℕ → Option (Option (ℚ × ℕ) × ℕ)
  | _, 0 => none
  | k, n + 1 =>
    match env k with
    | .ok offers => some (selectCheapestA offers, k + 1)
    | .rateLimited => get_flight_details_requests env (k + 1) n
    | _ => some (none, k + 1)

/-- The per-pair loop of populate_graph_with_real_data of airports.py
over an explicit working set: fetch each pair through
get_flight_details_requests and insert the edge only when a record was
produced and its price is strictly positive; a fuel-exhausted fetch
makes the whole run diverge. -/
def populateReal (env : ℕ → LiveResp) (today fuel : ℕ) :
    List (ℕ × ℕ) → Graph → ℕ → Option (Graph × ℕ)
  | [], G, k => some (G, k)
  | (o, d) :: rest, G, k =>
    match get_flight_details_requests env k fuel with
    | none => none
    | some (res, k1) =>
      populateReal env today fuel rest
        (match res with
         | some (q, i) => if 0 < q then addEdge G o d (liveQuoteInfo today q i) else G
         | none => G)
        k1

/-! ## Concrete instances used by witnesses and counterexamples -/

/-- A linear congruential step, one concrete instance of the abstract
generator interface. -/
def lcgNext (s : ℕ) : ℕ := (s * 97 + 89) % 1009

/-- A concrete generator built on lcgNext. -/
def lcg : RNG ℕ :=
  { randint := fun a b s => (a + lcgNext s % (b - a + 1), lcgNext s)
    choiceIdx := fun n s => (lcgNext s % n, lcgNext s)
    uniformStep := lcgNext }

/-- A live source that answers HTTP 403 to every call. -/
def envForbid : ℕ → LiveResp := fun _ => .forbidden

/-- A live source that answers HTTP 429 to every call. -/
def envRateLtd : ℕ → LiveResp := fun _ => .rateLimited

/-- A live source that answers HTTP 429 twice and then succeeds with an
empty offer list. -/
def envTwice429 : ℕ → LiveResp :=
  fun n => if n < 2 then .rateLimited else .ok []

/-- An attribute record with the given price and defaults elsewhere. -/
def basicInfo (q : ℚ) : FlightInfo :=
  { price := q, airline := 0, date := 0, depHour := 0, depMin := 0
    arrHour := 0, arrMin := 0, durHours := 0, durMins := 0, stops := 0 }

/-- The scenario graph of the specification: nodes A = 100, B = 101,
C = 102 with A→B and B→C at 100 and the direct A→C at 250. -/
def Gscen : Graph :=
  ⟨[100, 101, 102],
   [(100, 101, basicInfo 100), (101, 102, basicInfo 100), (100, 102, basicInfo 250)]⟩

/-- The same shape with the direct edge at 1000: the two-hop path costs
2 while the direct edge costs 500 times more. -/
def Gskew : Graph :=
  ⟨[100, 101, 102],
   [(100, 101, basicInfo 1), (101, 102, basicInfo 1), (100, 102, basicInfo 1000)]⟩

/-- A single-node graph. -/
def Gsolo : Graph := ⟨[100], []⟩

/-- Two isolated nodes. -/
def Gpair : Graph := ⟨[100, 101], []⟩

/-- Nodes 0 (JFK) and 1 (LAX) with one edge at price 100. -/
def Gedge : Graph := ⟨[0, 1], [(0, 1, basicInfo 100)]⟩

/-- The empty graph. -/
def Gempty : Graph := ⟨[], []⟩

/-- An offer list whose cheapest valid offer sits at index 1. -/
def offersEx : List PriceRepr :=
  [PriceRepr.directNum 100, PriceRepr.directNum 50, PriceRepr.amountField NumLike.bad]

/-- An offer list with a negative price and a positive one. -/
def offersNeg : List PriceRepr :=
  [PriceRepr.directNum (-5), PriceRepr.directNum 100]

/-! ## Lemmas about the path enumeration and the Dijkstra model -/

theorem mem_pathsAux (G : Graph) (t : ℕ) :
    ∀ (n : ℕ) (visited : List ℕ) (u : ℕ) (p : List ℕ),
      p ∈ pathsAux G t visited u n →
      chainB G p = true ∧ p.head? = some u ∧ p.getLast? = some t := by
  intro n
  induction n with
  | zero =>
    intro visited u p hp
    by_cases h : u = t
    · simp only [pathsAux, if_pos h, List.mem_singleton] at hp
      subst hp
      subst h
      exact ⟨rfl, rfl, rfl⟩
    · simp [pathsAux, if_neg h] at hp
  | succ n ih =>
    intro visited u p hp
    by_cases h : u = t
    · simp only [pathsAux, if_pos h, List.mem_singleton] at hp
      subst hp
      subst h
      exact ⟨rfl, rfl, rfl⟩
    · simp only [pathsAux, if_neg h, List.mem_flatMap, List.mem_map] at hp
      obtain ⟨v, hv, q, hq, rfl⟩ := hp
      obtain ⟨hcq, hhq, hlq⟩ := ih (v :: visited) v q hq
      have hvf := List.mem_filter.mp hv
      have hedge : (edgePrice G u v).isSome = true := by
        have h2 := hvf.2
        simp only [Bool.and_eq_true] at h2
        exact h2.2
      cases q with
      | nil => simp at hhq
      | cons a q2 =>
        have ha : a = v := by simpa using hhq
        subst ha
        refine ⟨?_, rfl, ?_⟩
        · simp only [chainB, Bool.and_eq_true]
          exact ⟨hedge, hcq⟩
        · rw [List.getLast?_cons_cons]
          exact hlq

theorem mem_simplePaths (G : Graph) (s t : ℕ) (p : List ℕ)
    (hp : p ∈ simplePaths G s t) :
    chainB G p = true ∧ p.head? = some s ∧ p.getLast? = some t :=
  mem_pathsAux G t G.nodes.length [s] s p hp

theorem simplePaths_len_two (G : Graph) (s t : ℕ) (p : List ℕ)
    (hp : p ∈ simplePaths G s t) (h2 : p.length = 2) :
    p = [s, t] := by
  obtain ⟨-, hh, hl⟩ := mem_simplePaths G s t p hp
  match p, h2 with
  | [a, b], _ =>
    have ha : a = s := by simpa using hh
    have hb : b = t := by simpa using hl
    rw [ha, hb]

theorem direct_mem_simplePaths (G : Graph) (s t : ℕ)
    (hs : s ∈ G.nodes) (ht : t ∈ G.nodes) (hst : s ≠ t)
    (he : (edgePrice G s t).isSome = true) :
    [s, t] ∈ simplePaths G s t := by
  unfold simplePaths
  obtain ⟨n, hn⟩ : ∃ n, G.nodes.length = n + 1 := by
    have := List.length_pos.mpr (List.ne_nil_of_mem hs)
    exact ⟨G.nodes.length - 1, by omega⟩
  rw [hn]
  simp only [pathsAux, if_neg hst, List.mem_flatMap, List.mem_map]
  refine ⟨t, ?_, [t], ?_, rfl⟩
  · rw [List.mem_filter]
    refine ⟨ht, ?_⟩
    simp [he, Ne.symm hst]
  · cases n <;> simp [pathsAux]

theorem chainCost_pair (G : Graph) (s t : ℕ) (w : ℚ)
    (h : edgePrice G s t = some w) : chainCost G [s, t] = w := by
  simp [chainCost, h]

theorem foldMin_spec (G : Graph) :
    ∀ (l : List (List ℕ)) (b : List ℕ × ℚ), b.2 = chainCost G b.1 →
      (l.foldl (minStep G) b = b ∨ (l.foldl (minStep G) b).1 ∈ l)
      ∧ (l.foldl (minStep G) b).2 = chainCost G (l.foldl (minStep G) b).1
      ∧ (l.foldl (minStep G) b).2 ≤ b.2
      ∧ ∀ q ∈ l, (l.foldl (minStep G) b).2 ≤ chainCost G q := by
  intro l
  induction l with
  | nil =>
    intro b hb
    exact ⟨Or.inl rfl, hb, le_refl _, by simp⟩
  | cons a l ih =>
    intro b hb
    simp only [List.foldl_cons]
    have hb1c : (minStep G b a).2 = chainCost G (minStep G b a).1 := by
      unfold minStep
      split
      · rfl
      · exact hb
    obtain ⟨hmem, hcost, hle, hall⟩ := ih (minStep G b a) hb1c
    have hb1le : (minStep G b a).2 ≤ b.2 := by
      unfold minStep
      split
      · next hlt => exact le_of_lt hlt
      · exact le_refl _
    have hb1a : (minStep G b a).2 ≤ chainCost G a := by
      unfold minStep
      split
      · exact le_refl _
      · next hlt => exact le_of_not_lt hlt
    refine ⟨?_, hcost, le_trans hle hb1le, ?_⟩
    · rcases hmem with h | h
      · rw [h]
        unfold minStep
        split
        · right
          exact List.mem_cons_self a l
        · left
          rfl
      · right
        exact List.mem_cons_of_mem a h
    · intro q hq
      rcases List.mem_cons.mp hq with rfl | hq2
      · exact le_trans hle hb1a
      · exact hall q hq2

theorem dijkstra_spec (G : Graph) (s t : ℕ) (p : List ℕ) (c : ℚ)
    (h : dijkstra G s t = some (p, c)) :
    p ∈ simplePaths G s t ∧ c = chainCost G p
    ∧ ∀ q ∈ simplePaths G s t, c ≤ chainCost G q := by
  unfold dijkstra pickMin at h
  cases hsp : simplePaths G s t with
  | nil =>
    rw [hsp] at h
    simp at h
  | cons p0 ps =>
    rw [hsp] at h
    simp only [Option.some.injEq] at h
    obtain ⟨hmem, hcost, hle, hall⟩ := foldMin_spec G ps (p0, chainCost G p0) rfl
    rw [h] at hmem hcost hle hall
    refine ⟨?_, hcost, ?_⟩
    · rcases hmem with h1 | h1
      · have : p = p0 := congrArg Prod.fst h1
        rw [this]
        exact List.mem_cons_self p0 ps
      · exact List.mem_cons_of_mem p0 h1
    · intro q hq
      rcases List.mem_cons.mp hq with rfl | hq2
      · exact hle
      · exact hall q hq2

theorem dijkstra_eq_none (G : Graph) (s t : ℕ) :
    dijkstra G s t = none ↔ simplePaths G s t = [] := by
  unfold dijkstra pickMin
  cases simplePaths G s t <;> simp

/-! ## Claim theorems -/

/-- C1: find_shortest_path_with_preference with source and target
nodes of the graph and a cheapest path sp of cost sc: with no direct
edge it returns sp with sc; with a direct edge of price w it returns
the 2-node direct itinerary with w whenever sp has more than one hop
and w is at most 1.3 times sc, returns sp with sc whenever w exceeds
1.3 times sc, and when the cheapest path is itself the direct edge
(one hop) it returns the direct edge, whose price then equals sc. The
nonnegative-weight hypothesis is the condition under which the
Dijkstra model matches nx.dijkstra_path. -/
theorem direct_preference_selection (G : Graph) (s t : ℕ)
    (sp : List ℕ) (sc w : ℚ)
    (hs : s ∈ G.nodes) (ht : t ∈ G.nodes) (hst : s ≠ t) (hnn : NonnegW G)
    (hd : dijkstra G s t = some (sp, sc)) :
    (edgePrice G s t = none →
       find_shortest_path_with_preference G s t = PlanResult.found sp sc)
    ∧ (edgePrice G s t = some w →
        (2 < sp.length →
           (w ≤ sc * (13 / 10) →
              find_shortest_path_with_preference G s t = PlanResult.found [s, t] w)
           ∧ (sc * (13 / 10) < w →
              find_shortest_path_with_preference G s t = PlanResult.found sp sc))
        ∧ (sp.length = 2 →
             find_shortest_path_with_preference G s t = PlanResult.found [s, t] w
             ∧ sc = w)) := by
  constructor
  · intro he
    simp [find_shortest_path_with_preference, hs, ht, hd, he]
  · intro he
    constructor
    · intro hlen
      constructor
      · intro hle
        simp [find_shortest_path_with_preference, hs, ht, hd, he, hlen, hle]
      · intro hgt
        have hcond : ¬(2 < sp.length ∧ w ≤ sc * (13 / 10)) := by
          rintro ⟨-, h2⟩
          exact absurd h2 (not_le.mpr hgt)
        simp [find_shortest_path_with_preference, hs, ht, hd, he, hcond]
    · intro hlen2
      have hsp2 : sp = [s, t] :=
        simplePaths_len_two G s t sp (dijkstra_spec G s t sp sc hd).1 hlen2
      have hscw : sc = w := by
        have h1 := (dijkstra_spec G s t sp sc hd).2.1
        rw [hsp2] at h1
        rw [h1, chainCost_pair G s t w he]
      have hcond : ¬(2 < sp.length ∧ w ≤ sc * (13 / 10)) := by
        rintro ⟨h2, -⟩
        rw [hlen2] at h2
        exact absurd h2 (by norm_num)
      have hres : find_shortest_path_with_preference G s t = PlanResult.found sp sc := by
        simp [find_shortest_path_with_preference, hs, ht, hd, he, hcond]
      rw [hres, hsp2, hscw]
      exact ⟨rfl, rfl⟩

/-- C1 witness: in the scenario graph with A→B and B→C at 100 and the
direct A→C at 250, the cheapest path is A,B,C at 200, the ratio is
1.25 ≤ 1.3, and the planner selects the direct itinerary at 250. -/
theorem direct_preference_selection_witness :
    find_shortest_path_with_preference Gscen 100 102 = PlanResult.found [100, 102] 250 := by
  have h := direct_preference_selection Gscen 100 102 [100, 101, 102] 200 250
    (by decide) (by decide) (by decide) (by decide)
    (by norm_num [dijkstra, pickMin, minStep, simplePaths, pathsAux, chainCost,
          Gscen, edgePrice, edgeInfo, basicInfo])
  exact ((h.2 (by decide)).1 (by decide)).1 (by norm_num)

/-- C2: the code of airports.py evaluated at the failing input. Its
interactive loop performs no origin = destination check, and its
planner find_cheapest_path on a node paired with itself returns the
single-node path with total cost 0 instead of rejecting the query:
here node 0 (JFK) of a graph containing the edge JFK→LAX. -/
theorem self_query_returns_zero_cost_path :
    find_cheapest_path Gedge 0 0 = PlanResult.found [0] 0 := by decide

/-- C3 counterexample: on a graph whose node set is just 100, querying
the airports_fixed.py planner for 100 → 101 with 101 not a node does
not return the NoRoute outcome: the nx.has_path call, which sits
before the try block, raises an uncaught NodeNotFound. -/
theorem missing_node_raises_not_noroute :
    find_shortest_path_with_preference Gsolo 100 101 = PlanResult.raised
    ∧ find_shortest_path_with_preference Gsolo 100 101 ≠ PlanResult.noRoute := by
  decide

/-- C3 amended: for distinct a, b with no path between them,
find_optimal_route of airports_enhanced.py returns NoRoute in every
case including a missing endpoint, while
find_shortest_path_with_preference of airports_fixed.py returns
NoRoute when both endpoints are nodes of the graph (and raises
NodeNotFound otherwise, as the counterexample shows). -/
theorem no_path_gives_noroute (G : Graph) (a b : ℕ) (hab : a ≠ b)
    (hnp : simplePaths G a b = []) :
    find_optimal_route G a b = RouteResult.noRoute
    ∧ (a ∈ G.nodes → b ∈ G.nodes →
        find_shortest_path_with_preference G a b = PlanResult.noRoute) := by
  have hdij : dijkstra G a b = none := (dijkstra_eq_none G a b).mpr hnp
  constructor
  · unfold find_optimal_route
    split
    · next hmem =>
      cases hei : edgeInfo G a b with
      | none =>
        simp [hei, hdij]
      | some info =>
        exfalso
        have hps : (edgePrice G a b).isSome = true := by
          simp [edgePrice, hei]
        have hm := direct_mem_simplePaths G a b hmem.1 hmem.2 hab hps
        rw [hnp] at hm
        simp at hm
    · rfl
  · intro ha hb
    simp [find_shortest_path_with_preference, ha, hb, hdij]

/-- C3 witness: two isolated nodes, no path between them: the enhanced
planner answers NoRoute. -/
theorem no_path_gives_noroute_witness :
    find_optimal_route Gpair 100 101 = RouteResult.noRoute :=
  (no_path_gives_noroute Gpair 100 101 (by decide) (by decide)).1

/-- C4: whenever find_cheapest_path of airports.py or
find_shortest_path_with_preference of airports_fixed.py returns an
itinerary, every consecutive node pair of the returned sequence is an
edge of the graph and the returned total cost is the sum of the prices
of those edges. The nonnegative-weight hypothesis is the condition
under which the Dijkstra model matches nx.dijkstra_path. -/
theorem itinerary_cost_is_edge_sum (G : Graph) (s t : ℕ) (hnn : NonnegW G) :
    (∀ p c, find_cheapest_path G s t = PlanResult.found p c →
       chainB G p = true ∧ c = chainCost G p)
    ∧ (∀ p c, find_shortest_path_with_preference G s t = PlanResult.found p c →
       chainB G p = true ∧ c = chainCost G p) := by
  constructor
  · intro p c h
    unfold find_cheapest_path at h
    split at h
    · cases hd : dijkstra G s t with
      | none => rw [hd] at h; simp at h
      | some pc =>
        obtain ⟨p0, c0⟩ := pc
        rw [hd] at h
        simp only [PlanResult.found.injEq] at h
        obtain ⟨rfl, rfl⟩ := h
        obtain ⟨hmem, hcost, -⟩ := dijkstra_spec G s t p0 c0 hd
        exact ⟨(mem_simplePaths G s t p0 hmem).1, hcost⟩
    · simp at h
  · intro p c h
    by_cases hin : s ∈ G.nodes ∧ t ∈ G.nodes
    · cases hd : dijkstra G s t with
      | none =>
        have hres : find_shortest_path_with_preference G s t = PlanResult.noRoute := by
          simp [find_shortest_path_with_preference, hin.1, hin.2, hd]
        rw [hres] at h
        simp at h
      | some pc =>
        obtain ⟨p0, c0⟩ := pc
        obtain ⟨hmem, hcost, -⟩ := dijkstra_spec G s t p0 c0 hd
        cases he : edgePrice G s t with
        | none =>
          have hres : find_shortest_path_with_preference G s t = PlanResult.found p0 c0 := by
            simp [find_shortest_path_with_preference, hin.1, hin.2, hd, he]
          rw [hres] at h
          simp only [PlanResult.found.injEq] at h
          obtain ⟨rfl, rfl⟩ := h
          exact ⟨(mem_simplePaths G s t p0 hmem).1, hcost⟩
        | some w =>
          by_cases hcond : 2 < p0.length ∧ w ≤ c0 * (13 / 10)
          · have hres :
                find_shortest_path_with_preference G s t = PlanResult.found [s, t] w := by
              simp [find_shortest_path_with_preference, hin.1, hin.2, hd, he, hcond]
            rw [hres] at h
            simp only [PlanResult.found.injEq] at h
            obtain ⟨rfl, rfl⟩ := h
            refine ⟨by simp [chainB, he], (chainCost_pair G s t w he).symm⟩
          · have hres : find_shortest_path_with_preference G s t = PlanResult.found p0 c0 := by
              simp [find_shortest_path_with_preference, hin.1, hin.2, hd, he, hcond]
            rw [hres] at h
            simp only [PlanResult.found.injEq] at h
            obtain ⟨rfl, rfl⟩ := h
            exact ⟨(mem_simplePaths G s t p0 hmem).1, hcost⟩
    · have hres : find_shortest_path_with_preference G s t = PlanResult.raised := by
        simp [find_shortest_path_with_preference, hin]
      rw [hres] at h
      simp at h

/-- C4 witness: in the scenario graph the preference planner returns
the direct itinerary A,C at 250, which is a one-edge chain whose cost
is the price of that edge. -/
theorem itinerary_cost_is_edge_sum_witness :
    chainB Gscen [100, 102] = true ∧ (250 : ℚ) = chainCost Gscen [100, 102] :=
  (itinerary_cost_is_edge_sum Gscen 100 102 (by decide)).2 [100, 102] 250
    (by norm_num [find_shortest_path_with_preference, dijkstra, pickMin, minStep,
          simplePaths, pathsAux, chainCost, Gscen, edgePrice, edgeInfo, basicInfo])

/-- C10: whenever the graph has a direct edge from origin to
destination (both being nodes), find_optimal_route of
airports_enhanced.py returns the 2-node direct itinerary with that
edge price, unconditionally and without comparing against any
multi-hop alternative; no tolerance bound relates it to the cheapest
path. -/
theorem optimal_route_direct_unconditional (G : Graph) (o d : ℕ)
    (info : FlightInfo) (ho : o ∈ G.nodes) (hd : d ∈ G.nodes)
    (he : edgeInfo G o d = some info) :
    find_optimal_route G o d = RouteResult.found [o, d] info.price [info] := by
  simp [find_optimal_route, ho, hd, he]

/-- C10 witness: a graph whose two-hop path A,B,C costs 2 while the
direct edge costs 1000: the enhanced planner still returns the direct
itinerary at 1000, five hundred times the cheapest cost. -/
theorem optimal_route_direct_unconditional_witness :
    find_optimal_route Gskew 100 102 = RouteResult.found [100, 102] 1000 [basicInfo 1000] :=
  optimal_route_direct_unconditional Gskew 100 102 (basicInfo 1000)
    (by decide) (by decide) (by decide)

/-! ## Lemmas about the acquisition pipeline -/

theorem addEdge_posW (G : Graph) (o d : ℕ) (info : FlightInfo)
    (hG : PosW G) (hi : 0 < info.price) : PosW (addEdge G o d info) := by
  intro e he
  unfold addEdge at he
  simp only at he
  split at he
  · rw [List.mem_map] at he
    obtain ⟨e0, he0, rfl⟩ := he
    split
    · exact hi
    · exact hG e0 he0
  · rw [List.mem_append] at he
    rcases he with h | h
    · exact hG e h
    · simp only [List.mem_singleton] at h
      rw [h]
      exact hi

theorem populatePairs_posW {σ : Type} (env : ℕ → LiveResp) (rng : RNG σ)
    (today : ℕ) :
    ∀ (pairs : List (ℕ × ℕ)) (G : Graph) (k : ℕ) (s : σ), PosW G →
      PosW (populatePairs env rng today pairs G k s).1 := by
  intro pairs
  induction pairs with
  | nil => intro G k s hG; exact hG
  | cons pr rest ih =>
    obtain ⟨o, d⟩ := pr
    intro G k s hG
    simp only [populatePairs]
    apply ih
    cases hfi : (get_detailed_flight_info env rng today o d k s).1 with
    | none => exact hG
    | some info =>
      show PosW (if 0 < info.price then addEdge G o d info else G)
      split
      · next hpos => exact addEdge_posW G o d info hG hpos
      · exact hG

theorem populateReal_posW (env : ℕ → LiveResp) (today fuel : ℕ) :
    ∀ (pairs : List (ℕ × ℕ)) (G : Graph) (k : ℕ), PosW G →
      ∀ Gr kr, populateReal env today fuel pairs G k = some (Gr, kr) → PosW Gr := by
  intro pairs
  induction pairs with
  | nil =>
    intro G k hG Gr kr h
    simp only [populateReal, Option.some.injEq, Prod.mk.injEq] at h
    rw [← h.1]
    exact hG
  | cons pr rest ih =>
    obtain ⟨o, d⟩ := pr
    intro G k hG Gr kr h
    simp only [populateReal] at h
    cases hg : get_flight_details_requests env k fuel with
    | none => rw [hg] at h; simp at h
    | some rk =>
      obtain ⟨res, k1⟩ := rk
      rw [hg] at h
      refine ih _ k1 ?_ Gr kr h
      cases res with
      | none => exact hG
      | some qi =>
        obtain ⟨q, i⟩ := qi
        show PosW (if 0 < q then addEdge G o d (liveQuoteInfo today q i) else G)
        split
        · next hpos => exact addEdge_posW G o d (liveQuoteInfo today q i) hG hpos
        · exact hG

/-- C5: starting from a graph whose edges all have strictly positive
price, both acquisition pipelines, populate_graph_with_flight_data of
airports_fixed.py and populate_graph_with_real_data of airports.py,
only produce graphs whose edges all have strictly positive price: a
quote whose price is not positive is discarded before insertion. -/
theorem no_nonpositive_edge_inserted {σ : Type} (env : ℕ → LiveResp)
    (rng : RNG σ) (today fuel : ℕ) (pairs : List (ℕ × ℕ)) (G : Graph)
    (k : ℕ) (s : σ) (hG : PosW G) :
    PosW (populatePairs env rng today pairs G k s).1
    ∧ ∀ Gr kr, populateReal env today fuel pairs G k = some (Gr, kr) → PosW Gr :=
  ⟨populatePairs_posW env rng today pairs G k s hG,
   populateReal_posW env today fuel pairs G k hG⟩

/-- C5 witness: a concrete synthetic run over one pair starting from
the two-node empty graph yields a graph all of whose edges have
strictly positive price. -/
theorem no_nonpositive_edge_inserted_witness :
    PosW (populatePairs envForbid lcg 0 [(100, 101)] Gpair 0 1).1 :=
  (no_nonpositive_edge_inserted envForbid lcg 0 5 [(100, 101)] Gpair 0 1
    (by decide)).1

/-- C6: the rate-limit handling of get_flight_details_requests of
airports.py (and the identical recursion of get_detailed_flight_info
of airports_enhanced.py) evaluated against the claimed policy. First
conjunct: against a source that answers HTTP 429 to every request, the
function never returns within any recursion bound: it sleeps and calls
itself again on each 429, so it does not terminate while the rate
limiting persists. Second conjunct: against a source that answers 429
exactly twice and then succeeds, the function makes three live calls,
retrying the pair twice rather than at most once. -/
theorem rate_limit_retry_unbounded :
    (∀ fuel k, get_flight_details_requests envRateLtd k fuel = none)
    ∧ get_flight_details_requests envTwice429 0 5 = some (none, 3) := by
  constructor
  · intro fuel
    induction fuel with
    | zero => intro k; rfl
    | succ n ih =>
      intro k
      simp only [get_flight_details_requests, envRateLtd]
      exact ih (k + 1)
  · decide

theorem populatePairs_count {σ : Type} (env : ℕ → LiveResp) (rng : RNG σ)
    (today : ℕ) :
    ∀ (pairs : List (ℕ × ℕ)) (G : Graph) (k : ℕ) (s : σ),
      (populatePairs env rng today pairs G k s).2.1 = k + pairs.length := by
  intro pairs
  induction pairs with
  | nil => intro G k s; simp [populatePairs]
  | cons pr rest ih =>
    obtain ⟨o, d⟩ := pr
    intro G k s
    have hk : (get_detailed_flight_info env rng today o d k s).2.1 = k + 1 := by
      unfold get_detailed_flight_info
      cases env k with
      | ok offers =>
        rcases hsel : selectCheapestA offers with - | ⟨q, i⟩ <;> simp [hsel]
      | rateLimited => simp
      | forbidden => simp
      | otherError => simp
      | requestExn => simp
    simp only [populatePairs, ih, hk, List.length_cons]
    omega

theorem populatePairs_nonOk {σ : Type} (env : ℕ → LiveResp) (rng : RNG σ)
    (today : ℕ) (henv : ∀ j, (env j).isOk = false) :
    ∀ (pairs : List (ℕ × ℕ)) (G : Graph) (k : ℕ) (s : σ),
      populatePairs env rng today pairs G k s
        = ((populateMockOnly rng today pairs G s).1, k + pairs.length,
           (populateMockOnly rng today pairs G s).2) := by
  intro pairs
  induction pairs with
  | nil => intro G k s; simp [populatePairs, populateMockOnly]
  | cons pr rest ih =>
    obtain ⟨o, d⟩ := pr
    intro G k s
    have hmock : get_detailed_flight_info env rng today o d k s
        = (some (generate_mock_flight_details rng today o d (rng.uniformStep s)).1,
           k + 1,
           (generate_mock_flight_details rng today o d (rng.uniformStep s)).2) := by
      unfold get_detailed_flight_info
      cases hj : env k with
      | ok offers =>
        have := henv k
        rw [hj] at this
        simp [LiveResp.isOk] at this
      | rateLimited => rfl
      | forbidden => rfl
      | otherError => rfl
      | requestExn => rfl
    simp only [populatePairs, populateMockOnly, hmock, ih, List.length_cons]
    have : k + 1 + rest.length = k + (rest.length + 1) := by omega
    rw [this]

/-- C7 amended: first conjunct: the pipeline of airports_fixed.py
attempts exactly one live flights/search call per pair of the working
set, whatever the source answered earlier in the run, so an
AccessDenied answer does not stop live calls for subsequent pairs.
Second conjunct: when every live call of the run fails (for example a
403 on every call), each pair is served by the synthetic generator:
the resulting graph is exactly the graph of the mock-only reference
run. -/
theorem access_denied_falls_back_per_pair {σ : Type} (env : ℕ → LiveResp)
    (rng : RNG σ) (today : ℕ) (pairs : List (ℕ × ℕ)) (G : Graph)
    (k : ℕ) (s : σ) :
    (populatePairs env rng today pairs G k s).2.1 = k + pairs.length
    ∧ ((∀ j, (env j).isOk = false) →
        (populatePairs env rng today pairs G k s).1
          = (populateMockOnly rng today pairs G s).1) :=
  ⟨populatePairs_count env rng today pairs G k s,
   fun henv => by rw [populatePairs_nonOk env rng today henv pairs G k s]⟩

/-- C7 counterexample: a run over two pairs against a source that
answers AccessDenied (HTTP 403) from the very first call still makes
two live calls: the claim that no live call is attempted for any pair
after an AccessDenied would bound the count by one. -/
theorem live_calls_continue_after_access_denied :
    ¬ (populatePairs envForbid lcg 0 [(100, 101), (100, 102)] Gempty 0 1).2.1 ≤ 1 := by
  decide

/-- C7 witness: over one pair with a source answering 403, the live
attempt count is one per pair and the produced graph coincides with
the mock-only reference run. -/
theorem access_denied_falls_back_per_pair_witness :
    (populatePairs envForbid lcg 0 [(100, 101)] Gempty 0 1).2.1 = 0 + 1
    ∧ (populatePairs envForbid lcg 0 [(100, 101)] Gempty 0 1).1
        = (populateMockOnly lcg 0 [(100, 101)] Gempty 1).1 :=
  ⟨(access_denied_falls_back_per_pair envForbid lcg 0 [(100, 101)] Gempty 0 1).1,
   (access_denied_falls_back_per_pair envForbid lcg 0 [(100, 101)] Gempty 0 1).2
     (fun _ => rfl)⟩

/-- C9 counterexample: two synthetic runs with the same generator
state 1, the same single-pair working set and a source failing every
live call, but started on day 0 and on day 1: the resulting graphs
differ, because the date attribute of every generated edge is the
current day plus 7, an input the claim does not fix. Prices, times,
airline and stops coincide. -/
theorem same_seed_runs_differ_across_dates :
    populatePairs envForbid lcg 0 [(100, 101)] Gempty 0 1
      ≠ populatePairs envForbid lcg 1 [(100, 101)] Gempty 0 1 := by
  decide

/-- C9 amended: two acquisition runs of airports_fixed.py with the
same generator implementation and state, the same working set in the
same order and the same run date produce identical graphs, counters
and final generator states whenever both runs see only failing live
calls, regardless of which failure statuses the two live sources
returned. In particular re-running with an identical seed is
reproducible on the same date. -/
theorem synthetic_run_deterministic {σ : Type} (rng : RNG σ) (today : ℕ)
    (pairs : List (ℕ × ℕ)) (G : Graph) (k : ℕ) (s : σ)
    (env1 env2 : ℕ → LiveResp)
    (h1 : ∀ j, (env1 j).isOk = false) (h2 : ∀ j, (env2 j).isOk = false) :
    populatePairs env1 rng today pairs G k s
      = populatePairs env2 rng today pairs G k s := by
  rw [populatePairs_nonOk env1 rng today h1 pairs G k s,
      populatePairs_nonOk env2 rng today h2 pairs G k s]

/-- C9 witness: a run against a source answering 403 throughout and a
run against a source answering 429 throughout, with the same state,
working set and date, produce identical results. -/
theorem synthetic_run_deterministic_witness :
    populatePairs envForbid lcg 0 [(100, 101)] Gempty 0 1
      = populatePairs envRateLtd lcg 0 [(100, 101)] Gempty 0 1 :=
  synthetic_run_deterministic lcg 0 [(100, 101)] Gempty 0 1 envForbid envRateLtd
    (fun _ => rfl) (fun _ => rfl)

/-! ## Lemmas about the offer-selection loop -/

theorem selectAux_spec (pa : PriceRepr → Option ℚ) (keep : ℚ → Bool) :
    ∀ (l : List PriceRepr) (i : ℕ) (acc : Option (ℚ × ℕ)),
      (selectAux pa keep l i acc = none →
         acc = none ∧ ∀ r ∈ l, ∀ q, pa r = some q → keep q = false)
      ∧ (∀ q j, selectAux pa keep l i acc = some (q, j) →
          (acc = some (q, j) ∨ ∃ r ∈ l, pa r = some q ∧ keep q = true)
          ∧ (∀ b j0, acc = some (b, j0) → q ≤ b)
          ∧ ∀ r ∈ l, ∀ qr, pa r = some qr → keep qr = true → q ≤ qr) := by
  intro l
  induction l with
  | nil =>
    intro i acc
    constructor
    · intro h
      exact ⟨h, by simp⟩
    · intro q j h
      simp only [selectAux] at h
      refine ⟨Or.inl h, ?_, by simp⟩
      intro b j0 hacc
      rw [hacc] at h
      simp only [Option.some.injEq, Prod.mk.injEq] at h
      exact le_of_eq h.1.symm
  | cons r rest ih =>
    intro i acc
    cases hpr : pa r with
    | none =>
      have heq : selectAux pa keep (r :: rest) i acc
          = selectAux pa keep rest (i + 1) acc := by
        simp only [selectAux, hpr]
      constructor
      · intro h
        rw [heq] at h
        obtain ⟨hacc, hrest⟩ := (ih (i + 1) acc).1 h
        refine ⟨hacc, ?_⟩
        intro r2 hr2 q hq
        rcases List.mem_cons.mp hr2 with rfl | hr2m
        · rw [hpr] at hq
          cases hq
        · exact hrest r2 hr2m q hq
      · intro q j h
        rw [heq] at h
        obtain ⟨hsrc, hbnd, hmin⟩ := (ih (i + 1) acc).2 q j h
        refine ⟨?_, hbnd, ?_⟩
        · rcases hsrc with h1 | ⟨r2, hr2, hq2⟩
          · exact Or.inl h1
          · exact Or.inr ⟨r2, List.mem_cons_of_mem r hr2, hq2⟩
        · intro r2 hr2 qr hqr hkqr
          rcases List.mem_cons.mp hr2 with rfl | hr2m
          · rw [hpr] at hqr
            cases hqr
          · exact hmin r2 hr2m qr hqr hkqr
    | some q0 =>
      cases acc with
      | none =>
        cases hk : keep q0 with
        | true =>
          have heq : selectAux pa keep (r :: rest) i none
              = selectAux pa keep rest (i + 1) (some (q0, i)) := by
            simp [selectAux, hpr, hk]
          constructor
          · intro h
            rw [heq] at h
            obtain ⟨hacc, -⟩ := (ih (i + 1) (some (q0, i))).1 h
            exact absurd hacc (by simp)
          · intro q j h
            rw [heq] at h
            obtain ⟨hsrc, hbnd, hmin⟩ := (ih (i + 1) (some (q0, i))).2 q j h
            refine ⟨?_, ?_, ?_⟩
            · rcases hsrc with h1 | ⟨r2, hr2, hq2⟩
              · have h2 : q0 = q := congrArg Prod.fst (Option.some.inj h1)
                refine Or.inr ⟨r, List.mem_cons_self r rest, ?_, ?_⟩
                · rw [hpr, h2]
                · rw [← h2]
                  exact hk
              · exact Or.inr ⟨r2, List.mem_cons_of_mem r hr2, hq2⟩
            · intro b j0 hacc
              cases hacc
            · intro r2 hr2 qr hqr hkqr
              rcases List.mem_cons.mp hr2 with rfl | hr2m
              · have h3 := hqr
                rw [hpr] at h3
                have h4 : q0 = qr := Option.some.inj h3
                rw [← h4]
                exact hbnd q0 i rfl
              · exact hmin r2 hr2m qr hqr hkqr
        | false =>
          have heq : selectAux pa keep (r :: rest) i none
              = selectAux pa keep rest (i + 1) none := by
            simp [selectAux, hpr, hk]
          constructor
          · intro h
            rw [heq] at h
            obtain ⟨-, hrest⟩ := (ih (i + 1) none).1 h
            refine ⟨rfl, ?_⟩
            intro r2 hr2 q hq
            rcases List.mem_cons.mp hr2 with rfl | hr2m
            · have h3 := hq
              rw [hpr] at h3
              have h4 : q0 = q := Option.some.inj h3
              rw [← h4]
              exact hk
            · exact hrest r2 hr2m q hq
          · intro q j h
            rw [heq] at h
            obtain ⟨hsrc, -, hmin⟩ := (ih (i + 1) none).2 q j h
            refine ⟨?_, ?_, ?_⟩
            · rcases hsrc with h1 | ⟨r2, hr2, hq2⟩
              · cases h1
              · exact Or.inr ⟨r2, List.mem_cons_of_mem r hr2, hq2⟩
            · intro b j0 hacc
              cases hacc
            · intro r2 hr2 qr hqr hkqr
              rcases List.mem_cons.mp hr2 with rfl | hr2m
              · have h3 := hqr
                rw [hpr] at h3
                have h4 : q0 = qr := Option.some.inj h3
                rw [← h4] at hkqr
                rw [hk] at hkqr
                cases hkqr
              · exact hmin r2 hr2m qr hqr hkqr
      | some bj =>
        obtain ⟨b0, j0⟩ := bj
        cases hcond : keep q0 && decide (q0 < b0) with
        | true =>
          have hpair : keep q0 = true ∧ decide (q0 < b0) = true := by
            simpa using hcond
          have hkq0 : keep q0 = true := hpair.1
          have hlt : q0 < b0 := of_decide_eq_true hpair.2
          have heq : selectAux pa keep (r :: rest) i (some (b0, j0))
              = selectAux pa keep rest (i + 1) (some (q0, i)) := by
            simp [selectAux, hpr, hcond]
          constructor
          · intro h
            rw [heq] at h
            obtain ⟨hacc, -⟩ := (ih (i + 1) (some (q0, i))).1 h
            exact absurd hacc (by simp)
          · intro q j h
            rw [heq] at h
            obtain ⟨hsrc, hbnd, hmin⟩ := (ih (i + 1) (some (q0, i))).2 q j h
            have hqb : q ≤ q0 := hbnd q0 i rfl
            refine ⟨?_, ?_, ?_⟩
            · rcases hsrc with h1 | ⟨r2, hr2, hq2⟩
              · have h2 : q0 = q := congrArg Prod.fst (Option.some.inj h1)
                refine Or.inr ⟨r, List.mem_cons_self r rest, ?_, ?_⟩
                · rw [hpr, h2]
                · rw [← h2]
                  exact hkq0
              · exact Or.inr ⟨r2, List.mem_cons_of_mem r hr2, hq2⟩
            · intro b j1 hacc
              have hbb : b0 = b := congrArg Prod.fst (Option.some.inj hacc)
              rw [← hbb]
              exact le_trans hqb (le_of_lt hlt)
            · intro r2 hr2 qr hqr hkqr
              rcases List.mem_cons.mp hr2 with rfl | hr2m
              · have h3 := hqr
                rw [hpr] at h3
                have h4 : q0 = qr := Option.some.inj h3
                rw [← h4]
                exact hqb
              · exact hmin r2 hr2m qr hqr hkqr
        | false =>
          have heq : selectAux pa keep (r :: rest) i (some (b0, j0))
              = selectAux pa keep rest (i + 1) (some (b0, j0)) := by
            simp [selectAux, hpr, hcond]
          constructor
          · intro h
            rw [heq] at h
            obtain ⟨hacc, -⟩ := (ih (i + 1) (some (b0, j0))).1 h
            exact absurd hacc (by simp)
          · intro q j h
            rw [heq] at h
            obtain ⟨hsrc, hbnd, hmin⟩ := (ih (i + 1) (some (b0, j0))).2 q j h
            have hqb0 : q ≤ b0 := hbnd b0 j0 rfl
            refine ⟨?_, ?_, ?_⟩
            · rcases hsrc with h1 | ⟨r2, hr2, hq2⟩
              · exact Or.inl h1
              · exact Or.inr ⟨r2, List.mem_cons_of_mem r hr2, hq2⟩
            · intro b j1 hacc
              have hbb : b0 = b := congrArg Prod.fst (Option.some.inj hacc)
              rw [← hbb]
              exact hqb0
            · intro r2 hr2 qr hqr hkqr
              rcases List.mem_cons.mp hr2 with rfl | hr2m
              · have h3 := hqr
                rw [hpr] at h3
                have h4 : q0 = qr := Option.some.inj h3
                have hkq : keep q0 = true := by
                  rw [h4]
                  exact hkqr
                have hnd : ¬ q0 < b0 := by
                  intro hlt2
                  have hc2 : (keep q0 && decide (q0 < b0)) = true := by
                    rw [hkq, decide_eq_true hlt2]
                    rfl
                  rw [hcond] at hc2
                  cases hc2
                rw [← h4]
                exact le_trans hqb0 (le_of_not_lt hnd)
              · exact hmin r2 hr2m qr hqr hkqr

/-- C8 counterexample: against the offer list with prices -5 and 100,
the extraction of airports.py and airports_fixed.py selects the offer
with price -5, not the cheapest positively priced offer 100: the
truthiness test if price only rules out 0, so a negative parsed price
participates and wins. -/
theorem negative_offer_price_selected :
    selectCheapestA offersNeg = some (-5, 0)
    ∧ selectCheapestA offersNeg ≠ some (100, 1) := by
  decide

/-- C8 amended: the extraction returns the offer with the strictly
lowest parsed price among the offers whose price parses and passes the
variant filter, which in airports.py and airports_fixed.py is being
non-zero (Python truthiness, so negative prices are accepted) and in
airports_enhanced.py is being strictly positive; offers whose price
fails to parse are skipped without aborting, and when no offer passes
the result is no quote. -/
theorem cheapest_offer_extraction (offers : List PriceRepr) :
    (∀ q i, selectCheapestA offers = some (q, i) →
       (∃ r ∈ offers, offerPriceA r = some q) ∧ q ≠ 0
       ∧ ∀ r ∈ offers, ∀ qr, offerPriceA r = some qr → qr ≠ 0 → q ≤ qr)
    ∧ (selectCheapestA offers = none →
       ∀ r ∈ offers, ∀ q, offerPriceA r = some q → q = 0)
    ∧ (∀ q i, selectCheapestE offers = some (q, i) →
       (∃ r ∈ offers, offerPriceE r = some q) ∧ 0 < q
       ∧ ∀ r ∈ offers, ∀ qr, offerPriceE r = some qr → 0 < qr → q ≤ qr)
    ∧ (selectCheapestE offers = none →
       ∀ r ∈ offers, ∀ q, offerPriceE r = some q → ¬ 0 < q) := by
  refine ⟨?_, ?_, ?_, ?_⟩
  · intro q i h
    obtain ⟨hsrc, -, hmin⟩ :=
      (selectAux_spec offerPriceA keepA offers 0 none).2 q i h
    rcases hsrc with h1 | ⟨r, hr, hpq, hkq⟩
    · cases h1
    · refine ⟨⟨r, hr, hpq⟩, ?_, ?_⟩
      · simpa [keepA] using hkq
      · intro r2 hr2 qr hqr hqr0
        exact hmin r2 hr2 qr hqr (by simp [keepA, hqr0])
  · intro h r hr q hq
    have hk := ((selectAux_spec offerPriceA keepA offers 0 none).1 h).2 r hr q hq
    simpa [keepA] using hk
  · intro q i h
    obtain ⟨hsrc, -, hmin⟩ :=
      (selectAux_spec offerPriceE keepE offers 0 none).2 q i h
    rcases hsrc with h1 | ⟨r, hr, hpq, hkq⟩
    · cases h1
    · refine ⟨⟨r, hr, hpq⟩, ?_, ?_⟩
      · simpa [keepE] using hkq
      · intro r2 hr2 qr hqr hqr0
        exact hmin r2 hr2 qr hqr (by simp [keepE, hqr0])
  · intro h r hr q hq
    have hk := ((selectAux_spec offerPriceE keepE offers 0 none).1 h).2 r hr q hq
    simpa [keepE] using hk

/-- C8 witness: on the offer list with prices 100, 50 and an offer
whose price fails to parse, the airports.py extraction selects price
50 at index 1: some offer parses to 50, 50 is non-zero, and 50 is
minimal among the non-zero parsed prices. -/
theorem cheapest_offer_extraction_witness :
    (∃ r ∈ offersEx, offerPriceA r = some 50) ∧ (50 : ℚ) ≠ 0
    ∧ ∀ r ∈ offersEx, ∀ qr, offerPriceA r = some qr → qr ≠ 0 → (50 : ℚ) ≤ qr :=
  (cheapest_offer_extraction offersEx).1 50 1 (by decide)

end Airports
